import Mathlib

/-!
Verification of the zigmaps grid-store library (`src/zigmaps.h`).

The repository ships only the public C header; the behaviour of the four
operations (`zigmaps_create`, `zigmaps_free`, `zigmaps_at`,
`zigmaps_make_traverse`) is fixed by the design document.  We embed the
store as a Lean structure over exact rationals (the design's formulas —
`ceil(width/resolution)`, `floor((x - origin)/resolution)` — are stated in
real arithmetic) and settle the documented properties against this model.
-/

/-- Modelled from the spec: the opaque `struct MapLayer` of `zigmaps.h`.
The header leaves the layout opaque; §3 of the design fixes the fields:
physical extent `width × height`, world-space `center`, cell-edge
`resolution`, derived `columns`/`rows` counts, and a row-major `cells`
array of `columns * rows` values (index `(row, col) = row * columns + col`). -/
structure MapLayer where
  width : ℚ
  height : ℚ
  center_x : ℚ
  center_y : ℚ
  resolution : ℚ
  columns : ℕ
  rows : ℕ
  cells : List ℚ
deriving DecidableEq, Repr

/-- Modelled from the spec: `zigmaps_create` (declaration only in
`zigmaps.h`).  Fails with `InvalidGeometry` (here `none`) when
`width <= 0`, `height <= 0` or `resolution <= 0`; otherwise computes
`columns = ceil(width/resolution)`, `rows = ceil(height/resolution)` and
zero-initializes the `columns * rows` cell array. -/
def zigmaps_create (width height center_x center_y resolution : ℚ) :
    Option MapLayer :=
  if width ≤ 0 ∨ height ≤ 0 ∨ resolution ≤ 0 then
    none
  else
    let columns : ℕ := (⌈width / resolution⌉).toNat
    let rows : ℕ := (⌈height / resolution⌉).toNat
    some { width := width, height := height, center_x := center_x,
           center_y := center_y, resolution := resolution,
           columns := columns, rows := rows,
           cells := List.replicate (columns * rows) 0 }

/-- Modelled from the spec: `zigmaps_at` (declaration only in `zigmaps.h`).
Quantizes world coordinates by
`col = floor((x - (center_x - width/2)) / resolution)`,
`row = floor((y - (center_y - height/2)) / resolution)`, fails with
`OutOfBounds` (here `none`) when
`col < 0 || col >= columns || row < 0 || row >= rows`, and otherwise
returns a handle to the cell — modelled as the row-major index
`row * columns + col` into `cells` (the C function returns a pointer to
that cell, null on failure). -/
def zigmaps_at (m : MapLayer) (x y : ℚ) : Option ℕ :=
  let col : ℤ := ⌊(x - (m.center_x - m.width / 2)) / m.resolution⌋
  let row : ℤ := ⌊(y - (m.center_y - m.height / 2)) / m.resolution⌋
  if col < 0 ∨ (m.columns : ℤ) ≤ col ∨ row < 0 ∨ (m.rows : ℤ) ≤ row then
    none
  else
    some (row.toNat * m.columns + col.toNat)

/-- Writing the float value `v` through a cell handle `i` obtained from
`zigmaps_at`: an in-place store into the backing array. -/
def zigmaps_write (m : MapLayer) (i : ℕ) (v : ℚ) : MapLayer :=
  { m with cells := m.cells.set i v }

/-- Reading the float value behind a cell handle `i` obtained from
`zigmaps_at`. -/
def zigmaps_read (m : MapLayer) (i : ℕ) : Option ℚ :=
  m.cells.get? i

/-- One caller-level mutation step: obtain a handle with `zigmaps_at` and
write `v` through it; coordinates that fail the bounds check leave the
store untouched. -/
def applyWrite (m : MapLayer) (x y v : ℚ) : MapLayer :=
  match zigmaps_at m x y with
  | some i => zigmaps_write m i v
  | none => m

/-- A sequence of `CellAt` writes applied to a store. -/
def applyWrites (m : MapLayer) (ws : List (ℚ × ℚ × ℚ)) : MapLayer :=
  ws.foldl (fun acc t => applyWrite acc t.1 t.2.1 t.2.2) m

/-- World-space coordinates of the center of cell `(row, col)`: the
inverse of the `zigmaps_at` quantization. -/
def cellCenter (m : MapLayer) (row col : ℕ) : ℚ × ℚ :=
  (m.center_x - m.width / 2 + ((col : ℚ) + 1 / 2) * m.resolution,
   m.center_y - m.height / 2 + ((row : ℚ) + 1 / 2) * m.resolution)

/-- Modelled from the spec: the sequence of `(coordinate, value)` pairs a
traversal view yields — every cell once, row-major (row 0 first, column 0
first within each row, the linearization of the backing array), each
paired with the world-space center of its cell. -/
def traverseEntries (m : MapLayer) : List ((ℚ × ℚ) × ℚ) :=
  (List.range (m.rows * m.columns)).map (fun k =>
    (cellCenter m (k / m.columns) (k % m.columns),
     (m.cells.get? k).getD 0))

/-- Modelled from the spec: the state of a traversal view — a read-only
cursor over its source store (`zigmaps_make_traverse` returns a
`MapLayer const *` referencing the store). -/
structure TraverseState where
  map : MapLayer
  pos : ℕ
deriving DecidableEq, Repr

/-- Modelled from the spec: `zigmaps_make_traverse` (declaration only in
`zigmaps.h`).  Always succeeds on a live store, yielding a read-only
traversal view positioned at the first cell. -/
def zigmaps_make_traverse (m : MapLayer) : TraverseState :=
  { map := m, pos := 0 }

/-- The operations available on a traversal view: advance to the next
cell, or restart the (restartable) sequence.  Reading is `viewPeek`. -/
inductive ViewOp where
  | next : ViewOp
  | restart : ViewOp
deriving DecidableEq, Repr

/-- Read the entry under the cursor (none when exhausted). -/
def viewPeek (t : TraverseState) : Option ((ℚ × ℚ) × ℚ) :=
  (traverseEntries t.map).get? t.pos

/-- Step a traversal view by one operation. -/
def viewStep (t : TraverseState) : ViewOp → TraverseState
  | ViewOp.next =>
      if t.pos < t.map.rows * t.map.columns then
        { t with pos := t.pos + 1 }
      else t
  | ViewOp.restart => { t with pos := 0 }

/-- Run a sequence of view operations. -/
def viewRun (t : TraverseState) (ops : List ViewOp) : TraverseState :=
  ops.foldl viewStep t

/-- The worked example store of §8:
`Create(width=3, height=2, center_x=0, center_y=0, resolution=1)`. -/
def exampleStore : MapLayer :=
  { width := 3, height := 2, center_x := 0, center_y := 0,
    resolution := 1, columns := 3, rows := 2,
    cells := List.replicate 6 0 }

/-- The store `Create(width=2.5, height=2.5, center_x=0, center_y=0,
resolution=1)`: `columns = rows = ceil(2.5) = 3`, so the grid's covered
extent `[-1.25, 1.75) × [-1.25, 1.75)` strictly contains the
`2.5 × 2.5` bounding box. -/
def cexStore : MapLayer :=
  { width := 5/2, height := 5/2, center_x := 0, center_y := 0,
    resolution := 1, columns := 3, rows := 3,
    cells := List.replicate 9 0 }

/-- C1: for every positive width, height and resolution, `zigmaps_create`
succeeds and yields a store with `columns = ceil(width / resolution)`,
`rows = ceil(height / resolution)` and all `columns * rows` cells zero. -/
theorem create_pos_spec (w h cx cy r : ℚ)
    (hw : 0 < w) (hh : 0 < h) (hr : 0 < r) :
    ∃ m : MapLayer, zigmaps_create w h cx cy r = some m ∧
      (m.columns : ℤ) = ⌈w / r⌉ ∧ (m.rows : ℤ) = ⌈h / r⌉ ∧
      m.cells.length = m.columns * m.rows ∧
      ∀ i : ℕ, i < m.columns * m.rows → m.cells.get? i = some 0 := by
  have hcond : ¬(w ≤ 0 ∨ h ≤ 0 ∨ r ≤ 0) := by
    push_neg
    exact ⟨hw, hh, hr⟩
  have hwr : (0 : ℚ) < w / r := div_pos hw hr
  have hhr : (0 : ℚ) < h / r := div_pos hh hr
  have hcw : 0 < ⌈w / r⌉ := Int.ceil_pos.mpr hwr
  have hch : 0 < ⌈h / r⌉ := Int.ceil_pos.mpr hhr
  unfold zigmaps_create
  rw [if_neg hcond]
  refine ⟨_, rfl, ?_, ?_, ?_, ?_⟩
  · simpa using Int.toNat_of_nonneg hcw.le
  · simpa using Int.toNat_of_nonneg hch.le
  · simp
  · intro i hi
    simp only [List.get?_eq_getElem?]
    exact List.getElem?_replicate_of_lt (by simpa using hi)

/-- C1 witness: `Create(3, 2, 0, 0, 1)` succeeds with `columns = 3`,
`rows = 2` and six zero cells. -/
theorem create_pos_spec_witness :
    ∃ m : MapLayer, zigmaps_create 3 2 0 0 1 = some m ∧
      (m.columns : ℤ) = ⌈(3 : ℚ) / 1⌉ ∧ (m.rows : ℤ) = ⌈(2 : ℚ) / 1⌉ ∧
      m.cells.length = m.columns * m.rows ∧
      ∀ i : ℕ, i < m.columns * m.rows → m.cells.get? i = some 0 :=
  create_pos_spec 3 2 0 0 1 (by norm_num) (by norm_num) (by norm_num)

/-- C7: `zigmaps_create` fails (producing no store) exactly when
`width <= 0`, `height <= 0` or `resolution <= 0`. -/
theorem create_fails_iff (w h cx cy r : ℚ) :
    zigmaps_create w h cx cy r = none ↔ (w ≤ 0 ∨ h ≤ 0 ∨ r ≤ 0) := by
  by_cases hcond : w ≤ 0 ∨ h ≤ 0 ∨ r ≤ 0
  · simp [zigmaps_create, hcond]
  · simp [zigmaps_create, hcond]

/-- Helper: `ceil(2.5) = 3`. -/
theorem ceil_two_point_five : ⌈(5 : ℚ) / 2⌉ = 3 := by
  rw [Int.ceil_eq_iff]
  norm_num

/-- Helper: evaluating `Create(3, 2, 0, 0, 1)` gives the §8 example
store. -/
theorem create_example_eval : zigmaps_create 3 2 0 0 1 = some exampleStore := by
  unfold zigmaps_create exampleStore
  rw [if_neg (by norm_num)]
  norm_num
  decide

/-- Helper: evaluating `Create(2.5, 2.5, 0, 0, 1)` gives the `3 × 3`
store `cexStore`. -/
theorem create_cex_eval :
    zigmaps_create (5/2) (5/2) 0 0 1 = some cexStore := by
  unfold zigmaps_create cexStore
  rw [if_neg (by norm_num)]
  norm_num [ceil_two_point_five]
  decide

/-- Helper: in the §8 example store, `CellAt(0.4, 0.4)` returns the
handle of cell `(row 1, col 1)`, i.e. row-major index 4. -/
theorem at_example_eval : zigmaps_at exampleStore (2/5) (2/5) = some 4 := by
  norm_num [zigmaps_at, exampleStore]

/-- Helper: destructing a successful `zigmaps_create`. -/
theorem create_eq_some (w h cx cy r : ℚ) (m : MapLayer)
    (hcond : ¬(w ≤ 0 ∨ h ≤ 0 ∨ r ≤ 0))
    (hm : zigmaps_create w h cx cy r = some m) :
    m = { width := w, height := h, center_x := cx, center_y := cy,
          resolution := r, columns := (⌈w / r⌉).toNat,
          rows := (⌈h / r⌉).toNat,
          cells := List.replicate ((⌈w / r⌉).toNat * (⌈h / r⌉).toNat) 0 } := by
  unfold zigmaps_create at hm
  rw [if_neg hcond] at hm
  exact (Option.some.inj hm).symm

/-- Helper: `zigmaps_at` succeeds when the quantized indices pass the
bounds check, returning the row-major cell index. -/
theorem zigmaps_at_some (m : MapLayer) (x y : ℚ)
    (h1 : 0 ≤ ⌊(x - (m.center_x - m.width / 2)) / m.resolution⌋)
    (h2 : ⌊(x - (m.center_x - m.width / 2)) / m.resolution⌋ < (m.columns : ℤ))
    (h3 : 0 ≤ ⌊(y - (m.center_y - m.height / 2)) / m.resolution⌋)
    (h4 : ⌊(y - (m.center_y - m.height / 2)) / m.resolution⌋ < (m.rows : ℤ)) :
    zigmaps_at m x y =
      some ((⌊(y - (m.center_y - m.height / 2)) / m.resolution⌋).toNat *
              m.columns +
            (⌊(x - (m.center_x - m.width / 2)) / m.resolution⌋).toNat) := by
  simp only [zigmaps_at]
  rw [if_neg]
  push_neg
  exact ⟨h1, h2, h3, h4⟩

/-- Helper: `zigmaps_at` fails exactly when a quantized index fails the
bounds check. -/
theorem zigmaps_at_none_iff (m : MapLayer) (x y : ℚ) :
    zigmaps_at m x y = none ↔
      (⌊(x - (m.center_x - m.width / 2)) / m.resolution⌋ < 0 ∨
       (m.columns : ℤ) ≤ ⌊(x - (m.center_x - m.width / 2)) / m.resolution⌋ ∨
       ⌊(y - (m.center_y - m.height / 2)) / m.resolution⌋ < 0 ∨
       (m.rows : ℤ) ≤ ⌊(y - (m.center_y - m.height / 2)) / m.resolution⌋) := by
  simp only [zigmaps_at]
  split
  · next hcond => simp [hcond]
  · next hcond => simp [hcond]

/-- Helper: a row-major index built from in-range row/column indices is
in range for the backing array. -/
theorem rowcol_index_lt (rIdx cIdx cols rws : ℕ)
    (hc : cIdx < cols) (hrw : rIdx < rws) :
    rIdx * cols + cIdx < cols * rws := by
  calc rIdx * cols + cIdx < rIdx * cols + cols := by omega
    _ = (rIdx + 1) * cols := by ring
    _ ≤ rws * cols := Nat.mul_le_mul_right cols (by omega)
    _ = cols * rws := Nat.mul_comm rws cols

/-- Helper: a handle returned by `zigmaps_at` indexes inside the
`columns * rows` backing array. -/
theorem zigmaps_at_lt (m : MapLayer) (x y : ℚ) (i : ℕ)
    (h : zigmaps_at m x y = some i) : i < m.columns * m.rows := by
  simp only [zigmaps_at] at h
  split at h
  · exact absurd h (by simp)
  · next hcond =>
    push_neg at hcond
    obtain ⟨h1, h2, h3, h4⟩ := hcond
    rw [← Option.some.inj h]
    have hcn : ((⌊(x - (m.center_x - m.width / 2)) / m.resolution⌋).toNat : ℤ)
        = ⌊(x - (m.center_x - m.width / 2)) / m.resolution⌋ :=
      Int.toNat_of_nonneg h1
    have hrn : ((⌊(y - (m.center_y - m.height / 2)) / m.resolution⌋).toNat : ℤ)
        = ⌊(y - (m.center_y - m.height / 2)) / m.resolution⌋ :=
      Int.toNat_of_nonneg h3
    have hcn' : (⌊(x - (m.center_x - m.width / 2)) / m.resolution⌋).toNat
        < m.columns := by
      omega
    have hrn' : (⌊(y - (m.center_y - m.height / 2)) / m.resolution⌋).toNat
        < m.rows := by
      omega
    have := rowcol_index_lt _ _ _ _ hcn' hrn'
    omega

/-- C2: for a store from a successful `Create` and any `(x, y)` strictly
inside its bounding box, `zigmaps_at` succeeds, returning the handle of
exactly the cell `col = floor((x - (center_x - width/2)) / resolution)`,
`row = floor((y - (center_y - height/2)) / resolution)` (row-major index
`row * columns + col`). -/
theorem at_inside_spec (w h cx cy r x y : ℚ) (m : MapLayer)
    (hw : 0 < w) (hh : 0 < h) (hr : 0 < r)
    (hm : zigmaps_create w h cx cy r = some m)
    (hx1 : cx - w / 2 < x) (hx2 : x < cx + w / 2)
    (hy1 : cy - h / 2 < y) (hy2 : y < cy + h / 2) :
    zigmaps_at m x y =
      some ((⌊(y - (cy - h / 2)) / r⌋).toNat * m.columns +
            (⌊(x - (cx - w / 2)) / r⌋).toNat) := by
  have hcond : ¬(w ≤ 0 ∨ h ≤ 0 ∨ r ≤ 0) := by
    push_neg
    exact ⟨hw, hh, hr⟩
  have hmm := create_eq_some w h cx cy r m hcond hm
  subst hmm
  have hcw : 0 < ⌈w / r⌉ := Int.ceil_pos.mpr (div_pos hw hr)
  have hch : 0 < ⌈h / r⌉ := Int.ceil_pos.mpr (div_pos hh hr)
  have hxlt : (x - (cx - w / 2)) / r < (⌈w / r⌉ : ℚ) := by
    have hstep : (x - (cx - w / 2)) / r < w / r :=
      (div_lt_div_iff_of_pos_right hr).mpr (by linarith)
    exact lt_of_lt_of_le hstep (Int.le_ceil _)
  have hylt : (y - (cy - h / 2)) / r < (⌈h / r⌉ : ℚ) := by
    have hstep : (y - (cy - h / 2)) / r < h / r :=
      (div_lt_div_iff_of_pos_right hr).mpr (by linarith)
    exact lt_of_lt_of_le hstep (Int.le_ceil _)
  have h2 : ⌊(x - (cx - w / 2)) / r⌋ < ((⌈w / r⌉).toNat : ℤ) := by
    rw [Int.toNat_of_nonneg hcw.le]
    exact Int.floor_lt.mpr (by exact_mod_cast hxlt)
  have h4 : ⌊(y - (cy - h / 2)) / r⌋ < ((⌈h / r⌉).toNat : ℤ) := by
    rw [Int.toNat_of_nonneg hch.le]
    exact Int.floor_lt.mpr (by exact_mod_cast hylt)
  exact zigmaps_at_some _ x y
    (Int.floor_nonneg.mpr (div_nonneg (by linarith) hr.le)) h2
    (Int.floor_nonneg.mpr (div_nonneg (by linarith) hr.le)) h4

/-- C2 witness: in the §8 example store (`3 × 2` cells, centered at the
origin, resolution 1), `CellAt` at `(0.4, 0.4)` resolves to the cell at
row 1, column 1 — row-major handle `1 * 3 + 1 = 4`. -/
theorem at_inside_spec_witness :
    zigmaps_at exampleStore (2/5) (2/5) = some 4 := by
  have h := at_inside_spec 3 2 0 0 1 (2/5) (2/5) exampleStore
    (by norm_num) (by norm_num) (by norm_num) create_example_eval
    (by norm_num) (by norm_num) (by norm_num) (by norm_num)
  norm_num [exampleStore] at h
  exact h

/-- C3 counterexample: in the store `Create(2.5, 2.5, 0, 0, 1)` the point
`x = 1.3, y = 0` lies outside the `2.5 × 2.5` bounding box
(`1.3 > center_x + width/2 = 1.25`), yet `zigmaps_at` succeeds (the grid
covers `ceil(2.5) = 3` columns, i.e. world interval `[-1.25, 1.75)`), so
`CellAt` does not fail for every point outside the bounding box. -/
theorem at_oob_counterexample :
    zigmaps_create (5/2) (5/2) 0 0 1 = some cexStore ∧
    cexStore.center_x + cexStore.width / 2 < 13/10 ∧
    zigmaps_at cexStore (13/10) 0 = some 5 := by
  refine ⟨create_cex_eval, by norm_num [cexStore], ?_⟩
  norm_num [zigmaps_at, cexStore]
  omega

/-- C3 amended: for a store from a successful `Create`, `zigmaps_at`
fails exactly when the quantized indices are out of range — equivalently,
exactly when `(x, y)` lies outside the half-open world extent the grid
covers, `[origin, origin + columns * resolution) × [origin_y, origin_y +
rows * resolution)`; that extent contains, and can strictly exceed, the
`width × height` bounding box. -/
theorem at_none_iff_outside_grid (w h cx cy r x y : ℚ) (m : MapLayer)
    (hw : 0 < w) (hh : 0 < h) (hr : 0 < r)
    (hm : zigmaps_create w h cx cy r = some m) :
    zigmaps_at m x y = none ↔
      (x < cx - w / 2 ∨ cx - w / 2 + m.columns * r ≤ x ∨
       y < cy - h / 2 ∨ cy - h / 2 + m.rows * r ≤ y) := by
  have hcond : ¬(w ≤ 0 ∨ h ≤ 0 ∨ r ≤ 0) := by
    push_neg
    exact ⟨hw, hh, hr⟩
  have hmm := create_eq_some w h cx cy r m hcond hm
  subst hmm
  rw [zigmaps_at_none_iff]
  simp only
  have hiffx1 : ⌊(x - (cx - w / 2)) / r⌋ < 0 ↔ x < cx - w / 2 := by
    rw [show ((0 : ℤ) = ((0 : ℤ) : ℤ)) from rfl, Int.floor_lt]
    rw [div_lt_iff₀ hr]
    push_cast
    constructor <;> intro hq <;> linarith
  have hiffx2 : ∀ n : ℕ, ((n : ℤ) ≤ ⌊(x - (cx - w / 2)) / r⌋ ↔
      cx - w / 2 + n * r ≤ x) := by
    intro n
    rw [Int.le_floor, le_div_iff₀ hr]
    push_cast
    constructor <;> intro hq <;> linarith
  have hiffy1 : ⌊(y - (cy - h / 2)) / r⌋ < 0 ↔ y < cy - h / 2 := by
    rw [show ((0 : ℤ) = ((0 : ℤ) : ℤ)) from rfl, Int.floor_lt]
    rw [div_lt_iff₀ hr]
    push_cast
    constructor <;> intro hq <;> linarith
  have hiffy2 : ∀ n : ℕ, ((n : ℤ) ≤ ⌊(y - (cy - h / 2)) / r⌋ ↔
      cy - h / 2 + n * r ≤ y) := by
    intro n
    rw [Int.le_floor, le_div_iff₀ hr]
    push_cast
    constructor <;> intro hq <;> linarith
  rw [hiffx1, hiffx2, hiffy1, hiffy2]

/-- C3 amended witness: in the store `Create(2.5, 2.5, 0, 0, 1)` the
point `(10, 10)` is outside the covered grid extent, so `CellAt` fails. -/
theorem at_none_iff_outside_grid_witness :
    zigmaps_at cexStore 10 10 = none ↔
      ((10 : ℚ) < 0 - (5/2) / 2 ∨
       0 - (5/2) / 2 + cexStore.columns * 1 ≤ (10 : ℚ) ∨
       (10 : ℚ) < 0 - (5/2) / 2 ∨
       0 - (5/2) / 2 + cexStore.rows * 1 ≤ (10 : ℚ)) :=
  at_none_iff_outside_grid (5/2) (5/2) 0 0 1 10 10 cexStore
    (by norm_num) (by norm_num) (by norm_num) create_cex_eval

/-- C4: for any store whose cell array has the invariant length
`columns * rows`, writing `v` through the handle returned by
`CellAt(s, x, y)` and then reading through `CellAt(s, x, y)` again
returns exactly `v`. -/
theorem write_read_roundtrip (m : MapLayer) (x y v : ℚ) (i : ℕ)
    (hlen : m.cells.length = m.columns * m.rows)
    (hi : zigmaps_at m x y = some i) :
    zigmaps_at (zigmaps_write m i v) x y = some i ∧
    zigmaps_read (zigmaps_write m i v) i = some v := by
  have hlt : i < m.cells.length := by
    rw [hlen]
    exact zigmaps_at_lt m x y i hi
  constructor
  · exact hi
  · simp only [zigmaps_read, zigmaps_write, List.get?_eq_getElem?]
    exact List.getElem?_set_eq_of_lt v (by simpa using hlt)

/-- C4 witness: in the §8 example store, writing `5` at `(0.4, 0.4)` and
reading back through the same coordinates returns `5`. -/
theorem write_read_roundtrip_witness :
    zigmaps_at (zigmaps_write exampleStore 4 5) (2/5) (2/5) = some 4 ∧
    zigmaps_read (zigmaps_write exampleStore 4 5) 4 = some 5 :=
  write_read_roundtrip exampleStore (2/5) (2/5) 5 4
    (by simp [exampleStore]) at_example_eval

/-- C5: writing through the handle returned by a successful
`CellAt(s, x, y)` changes no other cell, and leaves the store's geometry
(width, height, center, resolution, columns, rows) and the cell-array
length unchanged. -/
theorem write_frame (m : MapLayer) (x y v : ℚ) (i : ℕ)
    (_hi : zigmaps_at m x y = some i) :
    (∀ j : ℕ, j ≠ i →
        (zigmaps_write m i v).cells.get? j = m.cells.get? j) ∧
    (zigmaps_write m i v).width = m.width ∧
    (zigmaps_write m i v).height = m.height ∧
    (zigmaps_write m i v).center_x = m.center_x ∧
    (zigmaps_write m i v).center_y = m.center_y ∧
    (zigmaps_write m i v).resolution = m.resolution ∧
    (zigmaps_write m i v).columns = m.columns ∧
    (zigmaps_write m i v).rows = m.rows ∧
    (zigmaps_write m i v).cells.length = m.cells.length := by
  refine ⟨?_, rfl, rfl, rfl, rfl, rfl, rfl, rfl, by simp [zigmaps_write]⟩
  intro j hj
  simp only [zigmaps_write, List.get?_eq_getElem?]
  exact List.getElem?_set_ne (Ne.symm hj)

/-- C5 witness: in the §8 example store, writing `5` through the handle
for `(0.4, 0.4)` (cell index 4) leaves every other cell and the whole
geometry unchanged. -/
theorem write_frame_witness :
    (∀ j : ℕ, j ≠ 4 →
        (zigmaps_write exampleStore 4 5).cells.get? j =
          exampleStore.cells.get? j) ∧
    (zigmaps_write exampleStore 4 5).width = exampleStore.width ∧
    (zigmaps_write exampleStore 4 5).height = exampleStore.height ∧
    (zigmaps_write exampleStore 4 5).center_x = exampleStore.center_x ∧
    (zigmaps_write exampleStore 4 5).center_y = exampleStore.center_y ∧
    (zigmaps_write exampleStore 4 5).resolution = exampleStore.resolution ∧
    (zigmaps_write exampleStore 4 5).columns = exampleStore.columns ∧
    (zigmaps_write exampleStore 4 5).rows = exampleStore.rows ∧
    (zigmaps_write exampleStore 4 5).cells.length =
      exampleStore.cells.length :=
  write_frame exampleStore (2/5) (2/5) 5 4 at_example_eval

/-- Helper: one `CellAt` write never changes the geometry fields or the
cell-array length. -/
theorem applyWrite_preserves (m : MapLayer) (x y v : ℚ) :
    (applyWrite m x y v).width = m.width ∧
    (applyWrite m x y v).height = m.height ∧
    (applyWrite m x y v).center_x = m.center_x ∧
    (applyWrite m x y v).center_y = m.center_y ∧
    (applyWrite m x y v).resolution = m.resolution ∧
    (applyWrite m x y v).columns = m.columns ∧
    (applyWrite m x y v).rows = m.rows ∧
    (applyWrite m x y v).cells.length = m.cells.length := by
  unfold applyWrite
  cases zigmaps_at m x y <;> simp [zigmaps_write]

/-- Helper: a sequence of `CellAt` writes never changes the geometry
fields or the cell-array length. -/
theorem applyWrites_preserves (m : MapLayer) (ws : List (ℚ × ℚ × ℚ)) :
    (applyWrites m ws).width = m.width ∧
    (applyWrites m ws).height = m.height ∧
    (applyWrites m ws).center_x = m.center_x ∧
    (applyWrites m ws).center_y = m.center_y ∧
    (applyWrites m ws).resolution = m.resolution ∧
    (applyWrites m ws).columns = m.columns ∧
    (applyWrites m ws).rows = m.rows ∧
    (applyWrites m ws).cells.length = m.cells.length := by
  induction ws generalizing m with
  | nil => exact ⟨rfl, rfl, rfl, rfl, rfl, rfl, rfl, rfl⟩
  | cons t ws ih =>
    obtain ⟨a1, a2, a3, a4, a5, a6, a7, a8⟩ :=
      applyWrite_preserves m t.1 t.2.1 t.2.2
    obtain ⟨b1, b2, b3, b4, b5, b6, b7, b8⟩ :=
      ih (applyWrite m t.1 t.2.1 t.2.2)
    simp only [applyWrites, List.foldl_cons] at b1 b2 b3 b4 b5 b6 b7 b8 ⊢
    exact ⟨b1.trans a1, b2.trans a2, b3.trans a3, b4.trans a4,
           b5.trans a5, b6.trans a6, b7.trans a7, b8.trans a8⟩

/-- C8: a store produced by a successful `Create` keeps, under every
sequence of `CellAt` writes, the invariants `columns >= 1`, `rows >= 1`,
`resolution > 0` and cell-array length exactly `columns * rows`; width,
height, center, resolution, columns and rows never change. -/
theorem store_invariants (w h cx cy r : ℚ) (m : MapLayer)
    (hw : 0 < w) (hh : 0 < h) (hr : 0 < r)
    (hm : zigmaps_create w h cx cy r = some m) (ws : List (ℚ × ℚ × ℚ)) :
    1 ≤ (applyWrites m ws).columns ∧ 1 ≤ (applyWrites m ws).rows ∧
    0 < (applyWrites m ws).resolution ∧
    (applyWrites m ws).cells.length =
      (applyWrites m ws).columns * (applyWrites m ws).rows ∧
    (applyWrites m ws).width = m.width ∧
    (applyWrites m ws).height = m.height ∧
    (applyWrites m ws).center_x = m.center_x ∧
    (applyWrites m ws).center_y = m.center_y ∧
    (applyWrites m ws).resolution = m.resolution ∧
    (applyWrites m ws).columns = m.columns ∧
    (applyWrites m ws).rows = m.rows := by
  obtain ⟨pW, pH, pCX, pCY, pR, pC, pRw, pL⟩ := applyWrites_preserves m ws
  have hcond : ¬(w ≤ 0 ∨ h ≤ 0 ∨ r ≤ 0) := by
    push_neg
    exact ⟨hw, hh, hr⟩
  have hmm := create_eq_some w h cx cy r m hcond hm
  have hcw : 0 < ⌈w / r⌉ := Int.ceil_pos.mpr (div_pos hw hr)
  have hch : 0 < ⌈h / r⌉ := Int.ceil_pos.mpr (div_pos hh hr)
  subst hmm
  refine ⟨?_, ?_, ?_, ?_, pW, pH, pCX, pCY, pR, pC, pRw⟩
  · rw [pC]
    have := Int.toNat_of_nonneg hcw.le
    simp only
    omega
  · rw [pRw]
    have := Int.toNat_of_nonneg hch.le
    simp only
    omega
  · rw [pR]
    exact hr
  · rw [pL, pC, pRw]
    simp

/-- C8 witness: the §8 example store keeps all invariants after the write
`CellAt(0.4, 0.4) := 5`. -/
theorem store_invariants_witness :
    1 ≤ (applyWrites exampleStore [(2/5, 2/5, 5)]).columns ∧
    1 ≤ (applyWrites exampleStore [(2/5, 2/5, 5)]).rows ∧
    0 < (applyWrites exampleStore [(2/5, 2/5, 5)]).resolution ∧
    (applyWrites exampleStore [(2/5, 2/5, 5)]).cells.length =
      (applyWrites exampleStore [(2/5, 2/5, 5)]).columns *
        (applyWrites exampleStore [(2/5, 2/5, 5)]).rows ∧
    (applyWrites exampleStore [(2/5, 2/5, 5)]).width = exampleStore.width ∧
    (applyWrites exampleStore [(2/5, 2/5, 5)]).height =
      exampleStore.height ∧
    (applyWrites exampleStore [(2/5, 2/5, 5)]).center_x =
      exampleStore.center_x ∧
    (applyWrites exampleStore [(2/5, 2/5, 5)]).center_y =
      exampleStore.center_y ∧
    (applyWrites exampleStore [(2/5, 2/5, 5)]).resolution =
      exampleStore.resolution ∧
    (applyWrites exampleStore [(2/5, 2/5, 5)]).columns =
      exampleStore.columns ∧
    (applyWrites exampleStore [(2/5, 2/5, 5)]).rows = exampleStore.rows :=
  store_invariants 3 2 0 0 1 exampleStore
    (by norm_num) (by norm_num) (by norm_num) create_example_eval
    [(2/5, 2/5, 5)]

/-- Helper: the world-space x-offset of a cell center, divided by the
resolution, is `col + 1/2`. -/
theorem cellCenter_fst_offset (m : MapLayer) (rIdx cIdx : ℕ)
    (hres : m.resolution ≠ 0) :
    ((cellCenter m rIdx cIdx).1 - (m.center_x - m.width / 2)) /
        m.resolution = (cIdx : ℚ) + 1 / 2 := by
  simp only [cellCenter]
  rw [add_sub_cancel_left]
  exact mul_div_cancel_right₀ _ hres

/-- Helper: the world-space y-offset of a cell center, divided by the
resolution, is `row + 1/2`. -/
theorem cellCenter_snd_offset (m : MapLayer) (rIdx cIdx : ℕ)
    (hres : m.resolution ≠ 0) :
    ((cellCenter m rIdx cIdx).2 - (m.center_y - m.height / 2)) /
        m.resolution = (rIdx : ℚ) + 1 / 2 := by
  simp only [cellCenter]
  rw [add_sub_cancel_left]
  exact mul_div_cancel_right₀ _ hres

/-- Helper: `floor(n + 1/2) = n` for a natural `n`. -/
theorem floor_nat_add_half (n : ℕ) : ⌊(n : ℚ) + 1 / 2⌋ = (n : ℤ) := by
  rw [Int.floor_nat_add]
  norm_num

/-- C6: for every store with positive resolution, the traversal yields
exactly `columns * rows` entries; the entry at row-major position
`row * columns + col` carries the current value of that cell paired with
the world-space center of the cell; and `zigmaps_at` at that center
resolves back to the same cell (the traversal coordinates invert the
`CellAt` mapping). -/
theorem traverse_spec (m : MapLayer) (rIdx cIdx : ℕ)
    (hres : 0 < m.resolution)
    (hrw : rIdx < m.rows) (hc : cIdx < m.columns) :
    (traverseEntries m).length = m.columns * m.rows ∧
    (traverseEntries m).get? (rIdx * m.columns + cIdx) =
      some (cellCenter m rIdx cIdx,
            (m.cells.get? (rIdx * m.columns + cIdx)).getD 0) ∧
    zigmaps_at m (cellCenter m rIdx cIdx).1 (cellCenter m rIdx cIdx).2 =
      some (rIdx * m.columns + cIdx) := by
  have hC : 0 < m.columns := lt_of_le_of_lt (Nat.zero_le cIdx) hc
  have hk : rIdx * m.columns + cIdx < m.rows * m.columns := by
    have := rowcol_index_lt rIdx cIdx m.columns m.rows hc hrw
    rw [Nat.mul_comm m.columns m.rows] at this
    exact this
  have hdiv : (rIdx * m.columns + cIdx) / m.columns = rIdx := by
    rw [Nat.mul_comm rIdx m.columns, Nat.mul_add_div hC,
        Nat.div_eq_of_lt hc, Nat.add_zero]
  have hmod : (rIdx * m.columns + cIdx) % m.columns = cIdx := by
    rw [Nat.mul_comm rIdx m.columns, Nat.mul_add_mod,
        Nat.mod_eq_of_lt hc]
  refine ⟨?_, ?_, ?_⟩
  · simp [traverseEntries, Nat.mul_comm]
  · simp only [traverseEntries, List.get?_eq_getElem?, List.getElem?_map,
      List.getElem?_range, hk, if_pos, Option.map_some, Option.map_some']
    rw [hdiv, hmod]
  · have hfx : ⌊((cellCenter m rIdx cIdx).1 -
        (m.center_x - m.width / 2)) / m.resolution⌋ = (cIdx : ℤ) := by
      rw [cellCenter_fst_offset m rIdx cIdx hres.ne']
      exact floor_nat_add_half cIdx
    have hfy : ⌊((cellCenter m rIdx cIdx).2 -
        (m.center_y - m.height / 2)) / m.resolution⌋ = (rIdx : ℤ) := by
      rw [cellCenter_snd_offset m rIdx cIdx hres.ne']
      exact floor_nat_add_half rIdx
    have h := zigmaps_at_some m (cellCenter m rIdx cIdx).1
      (cellCenter m rIdx cIdx).2
      (by rw [hfx]; exact Int.natCast_nonneg cIdx)
      (by rw [hfx]; exact_mod_cast hc)
      (by rw [hfy]; exact Int.natCast_nonneg rIdx)
      (by rw [hfy]; exact_mod_cast hrw)
    rw [hfx, hfy] at h
    simpa [Int.toNat_natCast] using h

/-- C6 witness: in the §8 example store (3 columns, 2 rows), the entry at
row-major position `1 * 3 + 2 = 5` (row 1, column 2 — the last of the six
entries) carries cell 5's value and the center `(1, 0.5)` of that cell,
and `CellAt` at that center returns cell 5. -/
theorem traverse_spec_witness :
    (traverseEntries exampleStore).length =
      exampleStore.columns * exampleStore.rows ∧
    (traverseEntries exampleStore).get? (1 * exampleStore.columns + 2) =
      some (cellCenter exampleStore 1 2,
            (exampleStore.cells.get? (1 * exampleStore.columns + 2)).getD
              0) ∧
    zigmaps_at exampleStore (cellCenter exampleStore 1 2).1
        (cellCenter exampleStore 1 2).2 =
      some (1 * exampleStore.columns + 2) :=
  traverse_spec exampleStore 1 2 (by norm_num [exampleStore])
    (by norm_num [exampleStore]) (by norm_num [exampleStore])

/-- Helper: a single view operation never touches the underlying store. -/
theorem viewStep_map (t : TraverseState) (op : ViewOp) :
    (viewStep t op).map = t.map := by
  cases op with
  | next =>
    simp only [viewStep]
    split <;> rfl
  | restart => rfl

/-- Helper: a sequence of view operations never touches the underlying
store. -/
theorem viewRun_map (t : TraverseState) (ops : List ViewOp) :
    (viewRun t ops).map = t.map := by
  induction ops generalizing t with
  | nil => rfl
  | cons op ops ih =>
    simp only [viewRun, List.foldl_cons]
    exact (ih (viewStep t op)).trans (viewStep_map t op)

/-- C9: `zigmaps_make_traverse` succeeds on every store (it is total,
returning the view cursor over the store with no failure case), and no
sequence of operations on the returned view changes the store — in
particular every cell value is exactly as before. -/
theorem traversal_readonly (m : MapLayer) (ops : List ViewOp) :
    zigmaps_make_traverse m = { map := m, pos := 0 } ∧
    (viewRun (zigmaps_make_traverse m) ops).map = m ∧
    (viewRun (zigmaps_make_traverse m) ops).map.cells = m.cells := by
  exact ⟨rfl, viewRun_map _ ops,
    by rw [viewRun_map _ ops, zigmaps_make_traverse]⟩

/-- C10: on a store whose cell array has the invariant length, the
result of `zigmaps_at` is an optional handle: either `none` (the null
pointer, signalling `OutOfBounds`) or a handle to one cell of the backing
array. -/
theorem at_optional (m : MapLayer) (x y : ℚ)
    (hlen : m.cells.length = m.columns * m.rows) :
    zigmaps_at m x y = none ∨
      ∃ i : ℕ, zigmaps_at m x y = some i ∧ i < m.cells.length := by
  cases h : zigmaps_at m x y with
  | none => exact Or.inl rfl
  | some i =>
    refine Or.inr ⟨i, rfl, ?_⟩
    rw [hlen]
    exact zigmaps_at_lt m x y i h

/-- C10 witness: in the §8 example store the call at `(10, 10)` is
resolved through the optional result (here: the null/`none` branch, as
`(10, 10)` is out of bounds). -/
theorem at_optional_witness :
    zigmaps_at exampleStore 10 10 = none ∨
      ∃ i : ℕ, zigmaps_at exampleStore 10 10 = some i ∧
        i < exampleStore.cells.length :=
  at_optional exampleStore 10 10 (by simp [exampleStore])
